import Mathlib

/-!
Verification of the `exp-files` asynchronous file-processing pipeline.

The development shallowly embeds `src/exp_files/utils.py` and
`src/exp_files/processor.py`:

* text is represented as `List Char`; Python strings appear via `String.data`;
* `clean_text`, `WordFrequencyStrategy` and `SentenceSearchStrategy` are
  translated operation by operation (a Python `collections.Counter` built only
  by `update` from token lists is exactly a multiset of tokens);
* the async machinery (`asyncio.Semaphore`, one task per file, cooperative
  interleaving at the `await` points) is embedded as a small-step scheduler
  whose nondeterministic interleaving is an explicit schedule, and
  `AsyncProcessor.process_files` as a function over an abstract file system
  with explicit `ProcStats` state passing and `Except` for raised errors.
-/

namespace ExpFiles

/-- ASCII whitespace recognised by Python's `str.strip()` / `str.isspace()`. -/
def isPySpace (c : Char) : Bool :=
  c == ' ' || c == '\t' || c == '\n' || c == '\r' ||
  c == Char.ofNat 0x0B || c == Char.ofNat 0x0C

/-- Python `str.strip()`: remove leading and trailing whitespace. -/
def pyStrip (s : List Char) : List Char :=
  ((s.dropWhile isPySpace).reverse.dropWhile isPySpace).reverse

/-- Python `str.lower()` (faithful on the ASCII texts this program handles). -/
def lowerStr (s : List Char) : List Char := s.map Char.toLower

/-- A regex `\w` word character (ASCII alphanumeric or underscore, matching the
regex class used by `clean_text` on ASCII input). -/
def isWordChar (c : Char) : Bool := c.isAlphanum || c == '_'

/-- One step of scanning for maximal word-character runs: the accumulator holds
the finished tokens and the current (possibly empty) run. -/
def tokenizeStep (acc : List (List Char) × List Char) (c : Char) :
    List (List Char) × List Char :=
  if isWordChar c then (acc.1, acc.2 ++ [c])
  else if acc.2 = [] then acc else (acc.1 ++ [acc.2], [])

/-- `utils.clean_text`: `re.findall(r"\b\w+\b", text.lower())`, i.e. the list of
maximal word-character runs of the lowercased text, in order. -/
def clean_text (text : List Char) : List (List Char) :=
  let p := (lowerStr text).foldl tokenizeStep ([], [])
  if p.2 = [] then p.1 else p.1 ++ [p.2]

/-- Python substring containment `q in s` for strings. -/
def containsSub (q : List Char) : List Char → Bool
  | [] => q.isEmpty
  | s@(_ :: rest) => q.isPrefixOf s || containsSub q rest

/-- One `{file, sentence}` match dictionary of the sentence-search strategy. -/
structure SentenceMatch where
  file : Option String
  sentence : List Char
deriving DecidableEq, Repr

/-- The mutable state of one `SentenceSearchStrategy` instance. -/
structure SentenceSearchState where
  search_query : List Char
  case_sensitive : Bool
  matched_sentences : List SentenceMatch
  current_file : Option String
  buffer : List Char
deriving DecidableEq, Repr

/-- `SentenceSearchStrategy.__init__`: the query is lowercased once at
construction when the search is case-insensitive. -/
def SentenceSearchState.init (search_query : List Char) (case_sensitive : Bool) :
    SentenceSearchState :=
  { search_query := if case_sensitive then search_query else lowerStr search_query
    case_sensitive := case_sensitive
    matched_sentences := []
    current_file := none
    buffer := [] }

/-- `SentenceSearchStrategy.set_current_file`. -/
def SentenceSearchState.set_current_file (s : SentenceSearchState)
    (file_path : String) : SentenceSearchState :=
  { s with current_file := some file_path }

/-- One character of the sentence-splitting loop in
`SentenceSearchStrategy.process_chunk`: append the char to the candidate
sentence; a terminator emits the stripped candidate and restarts. -/
def sentenceScanStep (acc : List (List Char) × List Char) (c : Char) :
    List (List Char) × List Char :=
  let cur := acc.2 ++ [c]
  if c == '.' || c == '!' || c == '?' then (acc.1 ++ [pyStrip cur], []) else (acc.1, cur)

/-- The query test applied to a candidate sentence (`self.search_query in
text_to_search`, case-folded as configured). -/
def SentenceSearchState.matchText (s : SentenceSearchState) (t : List Char) : Bool :=
  containsSub s.search_query (if s.case_sensitive then t else lowerStr t)

/-- `SentenceSearchStrategy.process_chunk`: prepend the carry-over buffer, split
into terminated sentences, keep the unterminated tail as the new buffer (only
when it is not pure whitespace), and return the matches of this chunk. -/
def SentenceSearchState.process_chunk (s : SentenceSearchState) (chunk : List Char) :
    List SentenceMatch × SentenceSearchState :=
  let combined := s.buffer ++ chunk
  let p := combined.foldl sentenceScanStep ([], [])
  let buffer' := if pyStrip p.2 = [] then [] else p.2
  let matched := (p.1.filter s.matchText).map
    (fun sent => { file := s.current_file, sentence := sent })
  (matched, { s with buffer := buffer' })

/-- `SentenceSearchStrategy.merge_results`: extend the running match list with
each chunk result, in order. -/
def SentenceSearchState.merge_results (s : SentenceSearchState)
    (results : List (List SentenceMatch)) : SentenceSearchState :=
  { s with matched_sentences := s.matched_sentences ++ results.flatten }

/-- `SentenceSearchStrategy.get_final_result`: flush the carry-over buffer as a
final (possibly unterminated) sentence — tested untrimmed, appended trimmed. -/
def SentenceSearchState.get_final_result (s : SentenceSearchState) :
    List SentenceMatch :=
  if pyStrip s.buffer ≠ [] ∧ s.matchText s.buffer then
    s.matched_sentences ++ [{ file := s.current_file, sentence := pyStrip s.buffer }]
  else s.matched_sentences

/-- The worker's per-chunk step for sentence search:
`result = process_chunk(chunk); merge_results([result])`. -/
def ssFeed (s : SentenceSearchState) (chunk : List Char) : SentenceSearchState :=
  let p := s.process_chunk chunk
  p.2.merge_results [p.1]

/-- The sentence-search state after a fresh instance (with `set_current_file`
already called, as `_process_file` does) has consumed the given chunks. -/
def runSS (q : List Char) (cs : Bool) (file : String)
    (chunks : List (List Char)) : SentenceSearchState :=
  chunks.foldl ssFeed ((SentenceSearchState.init q cs).set_current_file file)

/-- A Python `Counter` that is only ever built by `Counter(words)` and
`counter.update(...)` is exactly the multiset of all counted tokens. -/
abbrev WordCounter := Multiset (List Char)

/-- `WordFrequencyStrategy.process_chunk`: `Counter(clean_text(chunk))`. -/
def wfProcessChunk (chunk : List Char) : WordCounter :=
  Multiset.ofList (clean_text chunk)

/-- `WordFrequencyStrategy.merge_results`: `self.counter.update(result)` for
each result, i.e. pointwise sum of counts. -/
def wfMergeResults (counter : WordCounter) (results : List WordCounter) : WordCounter :=
  results.foldl (· + ·) counter

/-- The state of one live strategy instance (either concrete subclass). -/
inductive StratState where
  | wf (counter : WordCounter)
  | ss (st : SentenceSearchState)
deriving DecidableEq

/-- A finalized per-file result: a `Counter` for word frequency, an ordered
match list for sentence search. -/
inductive PerFileResult where
  | counts (c : WordCounter)
  | matches (l : List SentenceMatch)
deriving DecidableEq

/-- The strategy object held by `AsyncProcessor` — what `isinstance` dispatches
on: one of the two supported classes (with the construction parameters that
`_create_strategy_instance` copies), or any other subclass of
`TextProcessingStrategy`, identified by its class name. -/
inductive StrategyDesc where
  | wordFreq
  | sentenceSearch (query : List Char) (case_sensitive : Bool)
  | other (name : String)
deriving DecidableEq

/-- The two strategy kinds that `_create_strategy_instance` can instantiate. -/
inductive RunnableStrategy where
  | wordFreq
  | sentenceSearch (query : List Char) (case_sensitive : Bool)
deriving DecidableEq

/-- Which supported strategy (if any) a strategy object dispatches to. -/
def StrategyDesc.runnable? : StrategyDesc → Option RunnableStrategy
  | .wordFreq => some .wordFreq
  | .sentenceSearch q cs => some (.sentenceSearch q cs)
  | .other _ => none

/-- `_create_strategy_instance` followed by the `set_current_file` call of
`_process_file` (a no-op for word frequency, which has no such method). -/
def RunnableStrategy.fresh : RunnableStrategy → String → StratState
  | .wordFreq, _ => .wf 0
  | .sentenceSearch q cs, path => .ss ((SentenceSearchState.init q cs).set_current_file path)

/-- The worker's loop body for one chunk:
`result = strategy.process_chunk(chunk); strategy.merge_results([result])`. -/
def StratState.feedChunk : StratState → List Char → StratState
  | .wf counter, chunk => .wf (wfMergeResults counter [wfProcessChunk chunk])
  | .ss st, chunk => .ss (ssFeed st chunk)

/-- `strategy.get_final_result()` after the last chunk. -/
def StratState.finalize : StratState → PerFileResult
  | .wf counter => .counts counter
  | .ss st => .matches st.get_final_result

/-- Feed a whole chunk sequence to a strategy instance, in order. -/
def runStrategy (init : StratState) (chunks : List (List Char)) : StratState :=
  chunks.foldl StratState.feedChunk init

/-- The collaborator file system consumed by the processor: directory
existence, recursive directory walk, and file contents (`none` when the open
or read fails). -/
structure FileSystem where
  dirExists : String → Bool
  walkFiles : String → List String
  readFile : String → Option (List Char)

/-- The `while True: chunk = await f.read(chunk_size)` loop: splits the decoded
contents into successive chunks of `chunk_size` characters (structural fuel
recursion on the remaining length; Python's `read(0)` returns `""` at once, so
chunk size zero reads nothing). -/
def readChunksAux (n : Nat) : Nat → List Char → List (List Char)
  | 0, _ => []
  | _, [] => []
  | fuel + 1, s => s.take n :: readChunksAux n fuel (s.drop n)

/-- All chunks read from a text with the configured chunk size. -/
def chunkify (n : Nat) (s : List Char) : List (List Char) :=
  if n = 0 then [] else readChunksAux n s.length s

/-- The chunk sequence a worker actually processes for a path: none when the
open fails (the `except` branch runs before any chunk is seen). -/
def fileChunks (fs : FileSystem) (chunk_size : Nat) (path : String) :
    List (List Char) :=
  match fs.readFile path with
  | none => []
  | some content => chunkify chunk_size content

/-- `AsyncProcessor._process_file` on one path, for a supported strategy: fresh
instance, stream the chunks (none when the open fails — the worker still
finalizes the untouched instance and returns its result). -/
def processFile (rd : RunnableStrategy) (fs : FileSystem) (chunk_size : Nat)
    (path : String) : PerFileResult :=
  match fs.readFile path with
  | none => (rd.fresh path).finalize
  | some content =>
      (runStrategy (rd.fresh path) (chunkify chunk_size content)).finalize

/-- `_process_file` as the caller sees it: `_create_strategy_instance` raises
`ValueError` for an unsupported strategy class (outside the `try`, so it is
not swallowed); otherwise the worker always returns a result. -/
def processFileE (d : StrategyDesc) (fs : FileSystem) (chunk_size : Nat)
    (path : String) : Except String PerFileResult :=
  match d with
  | .wordFreq => .ok (processFile .wordFreq fs chunk_size path)
  | .sentenceSearch q cs => .ok (processFile (.sentenceSearch q cs) fs chunk_size path)
  | .other n => .error ("Unsupported strategy type: " ++ n)


/-- `asyncio.gather` over fallible workers: collect all results in task order;
a raised exception propagates to the caller. -/
def exceptMapList (f : α → Except ε β) : List α → Except ε (List β)
  | [] => .ok []
  | a :: as =>
    match f a with
    | .error e => .error e
    | .ok b =>
      match exceptMapList f as with
      | .error e => .error e
      | .ok bs => .ok (b :: bs)

/-- The request model (`ProcessFilesRequest` pydantic model). -/
structure ProcessFilesRequest where
  dir_path : String
  file_paths : List String
deriving DecidableEq

/-- The processor's shared counters (`self.total_files`, `self.processed_files`),
threaded explicitly. `__init__` starts both at zero. -/
structure ProcStats where
  total_files : Nat
  processed_files : Nat
deriving DecidableEq, Repr

/-- What `process_files` returns: a summed counter, a concatenated match list,
or (for any other strategy class reaching the final merge) the raw per-file
result list. -/
inductive AggregatedResult where
  | counts (c : WordCounter)
  | matches (l : List SentenceMatch)
  | raw (rs : List PerFileResult)
deriving DecidableEq

/-- The match list carried by a per-file result (empty for a counter result;
under the sentence-search strategy every per-file result is a match list). -/
def matchesOfResult : PerFileResult → List SentenceMatch
  | .matches l => l
  | .counts _ => []

/-- The sentence-search merge loop of `process_files`:
`all_matched_sentences.extend(result)` over the gathered results in order. -/
def aggregateMatches (rs : List PerFileResult) : List SentenceMatch :=
  rs.foldl (fun acc r => acc ++ matchesOfResult r) []

/-- The counter carried by a per-file result (zero for a match-list result). -/
def countsOfResult : PerFileResult → WordCounter
  | .counts c => c
  | .matches _ => 0

/-- The word-frequency merge loop of `process_files`:
`total_counter.update(result)` over the gathered results. -/
def aggregateCounts (rs : List PerFileResult) : WordCounter :=
  rs.foldl (fun acc r => acc + countsOfResult r) 0

/-- The de-duplicated selection `all_files_list`: the union of the explicit
paths and the walk of `dir_path` (Python builds a `set`, whose iteration order
is arbitrary; the embedding fixes first-occurrence order — no claim below
depends on the enumeration order of the set). -/
def selectedFiles (fs : FileSystem) (req : ProcessFilesRequest) : List String :=
  (req.file_paths ++ (if req.dir_path = "" then [] else fs.walkFiles req.dir_path)).dedup

/-- The directory branch of the collection step: nothing when no directory is
given, `os.walk` when the given directory exists, a raised `ValueError`
otherwise. -/
def discoverDirFiles (fs : FileSystem) (req : ProcessFilesRequest) :
    Except String (List String) :=
  if req.dir_path = "" then .ok []
  else if fs.dirExists req.dir_path then .ok (fs.walkFiles req.dir_path)
  else .error ("Directory " ++ req.dir_path ++ " does not exist.")

/-- The final merge block of `process_files`, dispatching on the strategy's
class: sum the counters, concatenate the match lists in gathered order, or
(for any other strategy class) return the raw result list. -/
def mergeResultsByStrategy (d : StrategyDesc) (results : List PerFileResult) :
    AggregatedResult :=
  match d with
  | .wordFreq => .counts (aggregateCounts results)
  | .sentenceSearch _ _ => .matches (aggregateMatches results)
  | .other _ => .raw results

/-- `AsyncProcessor.process_files`, with the processor's counters threaded as
explicit state and raised errors as `Except.error`. -/
def process_files (d : StrategyDesc) (fs : FileSystem) (chunk_size : Nat)
    (stats : ProcStats) (req : ProcessFilesRequest) :
    Except String (AggregatedResult × ProcStats) :=
  if req.dir_path = "" ∧ req.file_paths = [] then
    .error "Either dir_path or file_paths must be provided."
  else
    match discoverDirFiles fs req with
    | .error e => .error e
    | .ok dirFiles =>
      let all_files_list := (req.file_paths ++ dirFiles).dedup
      let stats1 := { stats with total_files := all_files_list.length }
      match exceptMapList (processFileE d fs chunk_size) all_files_list with
      | .error e => .error e
      | .ok results =>
        let stats2 :=
          { stats1 with
            processed_files := stats1.processed_files + all_files_list.length }
        .ok (mergeResultsByStrategy d results, stats2)

/-- A request the validation of `process_files` accepts: something was
supplied, and a supplied directory exists. -/
def ValidRequest (fs : FileSystem) (req : ProcessFilesRequest) : Prop :=
  ¬(req.dir_path = "" ∧ req.file_paths = []) ∧
  (req.dir_path ≠ "" → fs.dirExists req.dir_path = true)

instance (fs : FileSystem) (req : ProcessFilesRequest) :
    Decidable (ValidRequest fs req) := by
  unfold ValidRequest; infer_instance

/-- Where one file worker stands between `await` points: not yet past the
admission gate; past the gate with the remaining chunk stream and its own
strategy instance; or completed with its per-file result. -/
inductive Phase where
  | waiting
  | running (pending : List (List Char)) (st : StratState)
  | done (res : PerFileResult)
deriving DecidableEq

/-- One `_process_file` task: its file path and its current phase. -/
structure Worker where
  path : String
  phase : Phase
deriving DecidableEq

/-- The state of the event loop: all spawned workers (in the task order passed
to `asyncio.gather`), the free permits of the semaphore, the order in which
workers have completed so far, and the shared `processed_files` counter. -/
structure SchedState where
  workers : List Worker
  sem : Nat
  completionOrder : List Nat
  processedFiles : Nat

/-- One cooperative step of the event loop, driving worker `i`:
acquire the semaphore when a permit is free (creating the fresh strategy
instance and opening the file), process one chunk, or — when the chunk stream
is exhausted — finalize, release the permit, report completion and bump
`processed_files`. A blocked or completed worker leaves the state unchanged. -/
def schedStep (rd : RunnableStrategy) (fs : FileSystem) (chunk_size : Nat)
    (s : SchedState) (i : Nat) : SchedState :=
  match s.workers.get? i with
  | none => s
  | some w =>
    match w.phase with
    | .waiting =>
      if s.sem = 0 then s
      else
        { s with
          workers := s.workers.set i
            { path := w.path
              phase := .running (fileChunks fs chunk_size w.path) (rd.fresh w.path) }
          sem := s.sem - 1 }
    | .running [] st =>
      { s with
        workers := s.workers.set i { path := w.path, phase := .done st.finalize }
        sem := s.sem + 1
        completionOrder := s.completionOrder ++ [i]
        processedFiles := s.processedFiles + 1 }
    | .running (c :: rest) st =>
      { s with
        workers := s.workers.set i
          { path := w.path, phase := .running rest (st.feedChunk c) } }
    | .done _ => s

/-- The event loop right after `process_files` has spawned one task per file:
every worker is waiting at the gate and all `concurrent_limit` permits are
free. -/
def initSched (files : List String) (concurrent_limit : Nat) : SchedState :=
  { workers := files.map (fun f => { path := f, phase := .waiting })
    sem := concurrent_limit
    completionOrder := []
    processedFiles := 0 }

/-- Run the event loop under an explicit interleaving: the schedule lists which
worker advances at each step (asyncio's actual interleaving is one such
schedule). -/
def runSched (rd : RunnableStrategy) (fs : FileSystem) (chunk_size : Nat)
    (files : List String) (concurrent_limit : Nat) (sched : List Nat) : SchedState :=
  sched.foldl (schedStep rd fs chunk_size) (initSched files concurrent_limit)

/-- `asyncio.gather`'s view once every task has finished: the per-file results
in task order (`none` while some worker has not completed). -/
def collectDone : List Worker → Option (List PerFileResult)
  | [] => some []
  | w :: ws =>
    match w.phase, collectDone ws with
    | .done r, some rs => some (r :: rs)
    | _, _ => none

/-- Whether a worker is past the admission gate and not yet finished. -/
def Phase.isRunning : Phase → Bool
  | .running _ _ => true
  | _ => false

/-- How many workers are inside the semaphore-guarded critical section. -/
def runningCount (s : SchedState) : Nat :=
  s.workers.countP (fun w => w.phase.isRunning)

/-- The match list already produced by worker `i` (empty unless completed). -/
def resultAt (s : SchedState) (i : Nat) : List SentenceMatch :=
  match s.workers.get? i with
  | some { path := _, phase := .done r } => matchesOfResult r
  | _ => []

/-- Flat concatenation of the per-file match lists in completion order — what
claim C1 asserts the aggregate to be. -/
def completionOrderMatches (s : SchedState) : List SentenceMatch :=
  (s.completionOrder.map (resultAt s)).flatten

/-- The aggregate `process_files` actually builds from a finished event loop:
the gathered (task-ordered) results, merged by the sentence-search loop. -/
def gatherMatches (s : SchedState) : Option (List SentenceMatch) :=
  match collectDone s.workers with
  | some rs => some (aggregateMatches rs)
  | none => none

/-- The descriptor of a runnable strategy as held by the processor. -/
def RunnableStrategy.toDesc : RunnableStrategy → StrategyDesc
  | .wordFreq => .wordFreq
  | .sentenceSearch q cs => .sentenceSearch q cs

/-- The result an untouched strategy instance finalizes to (what a file whose
open fails contributes). -/
def RunnableStrategy.emptyResult : RunnableStrategy → PerFileResult
  | .wordFreq => .counts 0
  | .sentenceSearch _ _ => .matches []

/-- The empty aggregate of a runnable strategy: empty counter, or empty match
list. -/
def RunnableStrategy.emptyAggregate : RunnableStrategy → AggregatedResult
  | .wordFreq => .counts 0
  | .sentenceSearch _ _ => .matches []

/-! Concrete fixtures used by witnesses and counterexamples. -/

/-- The spec's chunk-boundary test text (§8). -/
def c2text : List Char := "Hello world. This is a strategy test.".data

/-- A fresh sentence-search instance (no current file set) fed chunks in
order. -/
def runSSFresh (q : List Char) (cs : Bool) (chunks : List (List Char)) :
    SentenceSearchState :=
  chunks.foldl ssFeed (SentenceSearchState.init q cs)

/-- Two-file fixture for the aggregation-order analysis: `f0` holds two matching
sentences spread over two chunks of size 8, `f1` one matching sentence in a
single chunk. -/
def c1fs : FileSystem :=
  { dirExists := fun _ => false
    walkFiles := fun _ => []
    readFile := fun p =>
      if p = "f0" then some "aa x. bb x.".data
      else if p = "f1" then some "cc x.".data
      else none }

/-- A realizable interleaving (worker 1 has fewer chunks, hence finishes
first under round-robin): both acquire, worker 1 runs to completion, then
worker 0 does. -/
def c1run : SchedState :=
  runSched (.sentenceSearch "x".data false) c1fs 8 ["f0", "f1"] 2
    [0, 1, 1, 1, 0, 0, 0]

/-- Single-file fixture for the amended-C1 witness. -/
def c1wFs : FileSystem :=
  { dirExists := fun _ => false
    walkFiles := fun _ => []
    readFile := fun p => if p = "g" then some "x.".data else none }

/-- A complete one-worker run of the `c1wFs` fixture. -/
def c1wRun : SchedState :=
  runSched (.sentenceSearch "x".data false) c1wFs 8 ["g"] 1 [0, 0, 0]

/-- A file system on which every open fails. -/
def c7Fs : FileSystem :=
  { dirExists := fun _ => false
    walkFiles := fun _ => []
    readFile := fun _ => none }

/-- Two explicit files (both will fail to open on `c7Fs`). -/
def c7Req : ProcessFilesRequest := { dir_path := "", file_paths := ["f1", "f2"] }

/-- A file system with one existing — but empty — directory. -/
def c8Fs : FileSystem :=
  { dirExists := fun p => p == "emptydir"
    walkFiles := fun _ => []
    readFile := fun _ => none }

/-- A valid request naming the existing empty directory and no files. -/
def c8Req : ProcessFilesRequest := { dir_path := "emptydir", file_paths := [] }

/-- A valid request naming one explicit file. -/
def c8wReq : ProcessFilesRequest := { dir_path := "", file_paths := ["f"] }

/-- One readable file. -/
def c10Fs : FileSystem :=
  { dirExists := fun _ => false
    walkFiles := fun _ => []
    readFile := fun p => if p = "f" then some "x y".data else none }

/-- The request selecting just that file. -/
def c10Req : ProcessFilesRequest := { dir_path := "", file_paths := ["f"] }

/-- Three single-chunk files for the concurrency-bound witness. -/
def c9Fs : FileSystem :=
  { dirExists := fun _ => false
    walkFiles := fun _ => []
    readFile := fun _ => some "aa bb.".data }

/-- A run of three workers under `concurrent_limit = 2`. -/
def c9Run : SchedState :=
  runSched (.sentenceSearch "x".data false) c9Fs 8 ["a", "b", "c"] 2
    [0, 1, 2, 0, 1, 0, 0, 1, 2, 2, 2]

/-- The deterministic trajectory of one worker for its file: waiting at the
gate, an intermediate running state after some number `k` of processed chunks,
or completed with the file's result. The scheduler can only move a worker
along this trajectory, whatever the interleaving. -/
def OnTrack (rd : RunnableStrategy) (fs : FileSystem) (chunk_size : Nat)
    (path : String) : Phase → Prop
  | .waiting => True
  | .running pending st =>
      ∃ k, pending = (fileChunks fs chunk_size path).drop k ∧
        st = ((fileChunks fs chunk_size path).take k).foldl StratState.feedChunk
          (rd.fresh path)
  | .done r => r = processFile rd fs chunk_size path

/-- A worker is consistent with the file it was spawned for. -/
def WorkerOK (rd : RunnableStrategy) (fs : FileSystem) (chunk_size : Nat)
    (f : String) (w : Worker) : Prop :=
  w.path = f ∧ OnTrack rd fs chunk_size f w.phase

/-- Every worker of the event loop is consistent with its file, pointwise
along the spawned task list. -/
def GoodState (rd : RunnableStrategy) (fs : FileSystem) (chunk_size : Nat)
    (files : List String) (s : SchedState) : Prop :=
  List.Forall₂ (WorkerOK rd fs chunk_size) files s.workers

/-! ## Helper lemmas -/

theorem ssFeed_current_file (s : SentenceSearchState) (c : List Char) :
    (ssFeed s c).current_file = s.current_file := rfl

theorem foldl_ssFeed_current_file (chunks : List (List Char)) :
    ∀ s : SentenceSearchState,
      (chunks.foldl ssFeed s).current_file = s.current_file := by
  induction chunks with
  | nil => intro s; rfl
  | cons c rest ih => intro s; rw [List.foldl_cons, ih, ssFeed_current_file]

theorem runSS_current_file (q : List Char) (cs : Bool) (file : String)
    (chunks : List (List Char)) :
    (runSS q cs file chunks).current_file = some file := by
  rw [runSS, foldl_ssFeed_current_file]; rfl

/-! ## C2: sentence spanning a chunk boundary -/

/-- **C2**: the text `"Hello world. This is a strategy test."` (37 characters),
split at any of the 38 possible points into two chunks fed in order to a fresh
case-insensitive `SentenceSearchStrategy` with query `"strategy"`, followed by
`get_final_result`, yields exactly one match whose sentence is
`"This is a strategy test."`, independent of the split point. -/
theorem C2_sentence_spans_chunk_boundary :
    c2text.length = 37 ∧
    ∀ k : Fin 38,
      ((runSSFresh "strategy".data false
          [c2text.take k.val, c2text.drop k.val]).get_final_result).map
        SentenceMatch.sentence = ["This is a strategy test.".data] := by
  constructor
  · decide
  · decide

/-! ## C3: finalize flushes the carry-over buffer -/

/-- **C3**: for any query, case flag, file and chunk sequence, if after all
chunks the carry-over buffer is not pure whitespace (the file's text ended
without a terminating `.`, `!` or `?`) and the buffer matches the query, then
`get_final_result` appends exactly the trimmed buffer as one extra match for
the current file after the already-recorded matches — so a file ending in
trailing text containing the query still yields a match with that text. -/
theorem C3_finalize_flushes_unterminated_tail (q : List Char) (cs : Bool)
    (file : String) (chunks : List (List Char))
    (h1 : pyStrip (runSS q cs file chunks).buffer ≠ [])
    (h2 : (runSS q cs file chunks).matchText (runSS q cs file chunks).buffer = true) :
    (runSS q cs file chunks).get_final_result =
      (runSS q cs file chunks).matched_sentences ++
        [{ file := some file, sentence := pyStrip (runSS q cs file chunks).buffer }] := by
  rw [SentenceSearchState.get_final_result, if_pos ⟨h1, h2⟩, runSS_current_file]

/-- Witness for C3 at the spec's `"...no period at end"` example. -/
theorem C3_witness :
    (pyStrip (runSS "period".data false "f" ["...no period at end".data]).buffer ≠ [] ∧
      (runSS "period".data false "f" ["...no period at end".data]).matchText
        (runSS "period".data false "f" ["...no period at end".data]).buffer = true) ∧
    (runSS "period".data false "f" ["...no period at end".data]).get_final_result =
      (runSS "period".data false "f" ["...no period at end".data]).matched_sentences ++
        [{ file := some "f"
           sentence := pyStrip (runSS "period".data false "f"
             ["...no period at end".data]).buffer }] :=
  ⟨⟨by decide, by decide⟩,
    C3_finalize_flushes_unterminated_tail "period".data false "f"
      ["...no period at end".data] (by decide) (by decide)⟩

/-! ## C4: word-frequency round trip is chunk-size independent on `"a a b"` -/

/-- **C4**: a file containing exactly `"a a b"`, split into chunks of size 1, 2
or 1024 and fed in order through `process_chunk` + `merge_results`, always
finalizes to the counter `{a: 2, b: 1}`. -/
theorem C4_word_frequency_chunk_sizes_agree :
    (runStrategy (.wf 0) (chunkify 1 "a a b".data)).finalize =
      .counts (Multiset.ofList ["a".data, "a".data, "b".data]) ∧
    (runStrategy (.wf 0) (chunkify 2 "a a b".data)).finalize =
      .counts (Multiset.ofList ["a".data, "a".data, "b".data]) ∧
    (runStrategy (.wf 0) (chunkify 1024 "a a b".data)).finalize =
      .counts (Multiset.ofList ["a".data, "a".data, "b".data]) := by
  refine ⟨by decide, by decide, by decide⟩

/-! ## C5: a word straddling a chunk boundary is counted as two tokens -/

/-- **C5**: the text `"abcd"` fed unsplit counts as `{abcd: 1}`, but split into
the two chunks `"ab"`, `"cd"` it counts as `{ab: 1, cd: 1}` — the
word-frequency strategy keeps no cross-chunk state beyond the running total,
so a word straddling the boundary becomes two shorter tokens. -/
theorem C5_word_split_at_boundary_counts_twice :
    (runStrategy (.wf 0) ["abcd".data]).finalize =
      .counts (Multiset.ofList ["abcd".data]) ∧
    (runStrategy (.wf 0) ["ab".data, "cd".data]).finalize =
      .counts (Multiset.ofList ["ab".data, "cd".data]) ∧
    (runStrategy (.wf 0) ["abcd".data]).finalize ≠
      (runStrategy (.wf 0) ["ab".data, "cd".data]).finalize := by
  refine ⟨by decide, by decide, by decide⟩

/-! ## C6: empty request is a configuration error -/

/-- **C6**: whatever the strategy, the file system, the chunk size and the
processor's counters, a request with empty `dir_path` and empty `file_paths`
makes `process_files` raise the configuration `ValueError` at its first check
— no result is produced and no file work is done (the file system is never
consulted: the outcome is the same for every `fs`). -/
theorem C6_empty_request_raises (d : StrategyDesc) (fs : FileSystem)
    (chunk_size : Nat) (stats : ProcStats) :
    process_files d fs chunk_size stats { dir_path := "", file_paths := [] } =
      .error "Either dir_path or file_paths must be provided." := rfl

/-! ## `process_files` on a valid request with a supported strategy -/

theorem exceptMapList_ok {α β ε : Type} (f : α → Except ε β) (g : α → β)
    (l : List α) (h : ∀ a ∈ l, f a = .ok (g a)) :
    exceptMapList f l = .ok (l.map g) := by
  induction l with
  | nil => rfl
  | cons a as ih =>
    have ha := h a (List.mem_cons_self a as)
    have ih' := ih (fun x hx => h x (List.mem_cons_of_mem a hx))
    simp only [exceptMapList, ha, ih', List.map_cons]

theorem processFileE_runnable (d : StrategyDesc) (rd : RunnableStrategy)
    (h : d.runnable? = some rd) (fs : FileSystem) (chunk_size : Nat)
    (path : String) :
    processFileE d fs chunk_size path = .ok (processFile rd fs chunk_size path) := by
  cases d with
  | wordFreq =>
    simp only [StrategyDesc.runnable?, Option.some.injEq] at h
    subst h; rfl
  | sentenceSearch q cs =>
    simp only [StrategyDesc.runnable?, Option.some.injEq] at h
    subst h; rfl
  | other n => exact absurd h (by simp [StrategyDesc.runnable?])

theorem discoverDirFiles_valid (fs : FileSystem) (req : ProcessFilesRequest)
    (hv : req.dir_path ≠ "" → fs.dirExists req.dir_path = true) :
    discoverDirFiles fs req =
      .ok (if req.dir_path = "" then [] else fs.walkFiles req.dir_path) := by
  by_cases h0 : req.dir_path = ""
  · simp [discoverDirFiles, h0]
  · simp [discoverDirFiles, h0, hv h0]

/-- On a valid request with a supported strategy, `process_files` succeeds: it
maps `processFile` over the de-duplicated selection (in task order), merges by
strategy kind, sets `total_files` to the selection size and adds that size to
`processed_files` (one increment per worker). -/
theorem process_files_ok (d : StrategyDesc) (rd : RunnableStrategy)
    (h : d.runnable? = some rd) (fs : FileSystem) (chunk_size : Nat)
    (stats : ProcStats) (req : ProcessFilesRequest) (hv : ValidRequest fs req) :
    process_files d fs chunk_size stats req =
      .ok (mergeResultsByStrategy d
             ((selectedFiles fs req).map (processFile rd fs chunk_size)),
           { total_files := (selectedFiles fs req).length
             processed_files :=
               stats.processed_files + (selectedFiles fs req).length }) := by
  obtain ⟨hv1, hv2⟩ := hv
  have hdisc := discoverDirFiles_valid fs req hv2
  have hmap := exceptMapList_ok (processFileE d fs chunk_size)
    (processFile rd fs chunk_size)
    ((req.file_paths ++
        (if req.dir_path = "" then [] else fs.walkFiles req.dir_path)).dedup)
    (fun a _ => processFileE_runnable d rd h fs chunk_size a)
  unfold process_files
  rw [if_neg hv1, hdisc]
  dsimp only
  rw [hmap]
  rfl

/-! ## C7: every file failing to open -/

theorem get_final_result_empty_buffer (s : SentenceSearchState)
    (h : s.buffer = []) : s.get_final_result = s.matched_sentences := by
  rw [SentenceSearchState.get_final_result, if_neg]
  intro hc
  exact hc.1 (by rw [h]; rfl)

theorem processFile_failed_open (rd : RunnableStrategy) (fs : FileSystem)
    (chunk_size : Nat) (f : String) (h : fs.readFile f = none) :
    processFile rd fs chunk_size f = rd.emptyResult := by
  unfold processFile
  rw [h]
  cases rd with
  | wordFreq => rfl
  | sentenceSearch q cs =>
    exact congrArg PerFileResult.matches (get_final_result_empty_buffer _ rfl)

theorem foldl_add_counts_of_zero (rs : List PerFileResult)
    (h : ∀ r ∈ rs, countsOfResult r = 0) :
    ∀ acc : WordCounter, rs.foldl (fun acc r => acc + countsOfResult r) acc = acc := by
  induction rs with
  | nil => intro acc; rfl
  | cons r rest ih =>
    intro acc
    rw [List.foldl_cons, h r (List.mem_cons_self r rest), add_zero]
    exact ih (fun x hx => h x (List.mem_cons_of_mem r hx)) acc

theorem foldl_append_matches_of_nil (rs : List PerFileResult)
    (h : ∀ r ∈ rs, matchesOfResult r = []) :
    ∀ acc : List SentenceMatch,
      rs.foldl (fun acc r => acc ++ matchesOfResult r) acc = acc := by
  induction rs with
  | nil => intro acc; rfl
  | cons r rest ih =>
    intro acc
    rw [List.foldl_cons, h r (List.mem_cons_self r rest), List.append_nil]
    exact ih (fun x hx => h x (List.mem_cons_of_mem r hx)) acc

theorem mergeResultsByStrategy_all_empty (d : StrategyDesc) (rd : RunnableStrategy)
    (h : d.runnable? = some rd) (rs : List PerFileResult)
    (hall : ∀ r ∈ rs, r = rd.emptyResult) :
    mergeResultsByStrategy d rs = rd.emptyAggregate := by
  cases d with
  | wordFreq =>
    simp only [StrategyDesc.runnable?, Option.some.injEq] at h
    subst h
    have hz : aggregateCounts rs = 0 := by
      rw [aggregateCounts]
      exact foldl_add_counts_of_zero rs (fun r hr => by rw [hall r hr]; rfl) 0
    simp only [mergeResultsByStrategy, RunnableStrategy.emptyAggregate, hz]
  | sentenceSearch q cs =>
    simp only [StrategyDesc.runnable?, Option.some.injEq] at h
    subst h
    have hz : aggregateMatches rs = [] := by
      rw [aggregateMatches]
      exact foldl_append_matches_of_nil rs (fun r hr => by rw [hall r hr]; rfl) []
    simp only [mergeResultsByStrategy, RunnableStrategy.emptyAggregate, hz]
  | other n => exact absurd h (by simp [StrategyDesc.runnable?])

/-- **C7**: when every selected file fails to open, `process_files` still
completes without error; with a fresh processor the aggregate is the empty
counter (word frequency) or the empty match list (sentence search), and
`processed_files` ends equal to `total_files` — every failed worker still
counts once and contributes the empty per-file result. -/
theorem C7_all_opens_fail_still_completes (d : StrategyDesc)
    (rd : RunnableStrategy) (fs : FileSystem) (chunk_size : Nat)
    (req : ProcessFilesRequest) (h : d.runnable? = some rd)
    (hv : ValidRequest fs req)
    (hfail : ∀ f ∈ selectedFiles fs req, fs.readFile f = none) :
    process_files d fs chunk_size { total_files := 0, processed_files := 0 } req =
      .ok (rd.emptyAggregate,
        { total_files := (selectedFiles fs req).length
          processed_files := (selectedFiles fs req).length }) ∧
    ∀ f ∈ selectedFiles fs req,
      processFile rd fs chunk_size f = rd.emptyResult := by
  have hper : ∀ f ∈ selectedFiles fs req,
      processFile rd fs chunk_size f = rd.emptyResult :=
    fun f hf => processFile_failed_open rd fs chunk_size f (hfail f hf)
  refine ⟨?_, hper⟩
  rw [process_files_ok d rd h fs chunk_size _ req hv]
  rw [mergeResultsByStrategy_all_empty d rd h _
    (fun r hr => by
      obtain ⟨f, hf, rfl⟩ := List.mem_map.mp hr
      exact hper f hf)]
  simp

/-- Witness for C7: two explicit files on a file system where every open
fails, word-frequency strategy. -/
theorem C7_witness :
    ((StrategyDesc.wordFreq.runnable? = some RunnableStrategy.wordFreq) ∧
      ValidRequest c7Fs c7Req ∧
      ∀ f ∈ selectedFiles c7Fs c7Req, c7Fs.readFile f = none) ∧
    (process_files .wordFreq c7Fs 1024 { total_files := 0, processed_files := 0 }
        c7Req =
      .ok (RunnableStrategy.wordFreq.emptyAggregate,
        { total_files := (selectedFiles c7Fs c7Req).length
          processed_files := (selectedFiles c7Fs c7Req).length }) ∧
      ∀ f ∈ selectedFiles c7Fs c7Req,
        processFile RunnableStrategy.wordFreq c7Fs 1024 f =
          RunnableStrategy.wordFreq.emptyResult) :=
  ⟨⟨by decide, by decide, by decide⟩,
    C7_all_opens_fail_still_completes .wordFreq .wordFreq c7Fs 1024 c7Req
      (by decide) (by decide) (by decide)⟩

/-! ## C8: unsupported strategy class -/

/-- **C8 (counterexample)**: the claim fails as stated — the request naming the
existing but empty directory `"emptydir"` is valid, yet with an unsupported
strategy class `process_files` does not surface a configuration error: no
worker ever calls `_create_strategy_instance`, and the final merge's fallback
branch returns the (empty) raw result list successfully. -/
theorem C8_counterexample_empty_selection_returns_ok :
    ValidRequest c8Fs c8Req ∧
    process_files (.other "CustomStrategy") c8Fs 1024
        { total_files := 0, processed_files := 0 } c8Req =
      .ok (.raw [], { total_files := 0, processed_files := 0 }) :=
  ⟨by decide, rfl⟩

/-- **C8 (amended)**: for every valid request that selects at least one file,
an unsupported strategy class makes `process_files` raise the
`Unsupported strategy type` configuration error, producing no result (when the
valid request selects no file — an existing empty directory — the run instead
returns an empty result list without error, per the counterexample). -/
theorem C8_unsupported_strategy_raises (name : String) (fs : FileSystem)
    (chunk_size : Nat) (stats : ProcStats) (req : ProcessFilesRequest)
    (hv : ValidRequest fs req) (hne : selectedFiles fs req ≠ []) :
    process_files (.other name) fs chunk_size stats req =
      .error ("Unsupported strategy type: " ++ name) := by
  obtain ⟨hv1, hv2⟩ := hv
  have hdisc := discoverDirFiles_valid fs req hv2
  unfold process_files
  rw [if_neg hv1, hdisc]
  dsimp only
  rcases hsel : (req.file_paths ++
      (if req.dir_path = "" then [] else fs.walkFiles req.dir_path)).dedup with
    _ | ⟨a, as⟩
  · exact absurd hsel hne
  · rfl

/-- Witness for the amended C8: one explicit file, unsupported strategy. -/
theorem C8_witness :
    (ValidRequest c8Fs c8wReq ∧ selectedFiles c8Fs c8wReq ≠ []) ∧
    process_files (.other "CustomStrategy") c8Fs 1024
        { total_files := 0, processed_files := 0 } c8wReq =
      .error ("Unsupported strategy type: " ++ "CustomStrategy") :=
  ⟨⟨by decide, by decide⟩,
    C8_unsupported_strategy_raises "CustomStrategy" c8Fs 1024
      { total_files := 0, processed_files := 0 } c8wReq (by decide) (by decide)⟩

/-! ## C10: `processed_files` is never reset across runs -/

/-- **C10**: on one `AsyncProcessor` run to completion twice over the same `n`
readable files, `total_files` is reassigned to `n` each run but
`processed_files` accumulates: after the first run both equal `n`, after the
second run `processed_files = 2 * n` while `total_files = n` — so
`processed_files == total_files` holds only for the first call on a fresh
processor. -/
theorem C10_processed_files_accumulates (d : StrategyDesc)
    (rd : RunnableStrategy) (fs : FileSystem) (chunk_size : Nat)
    (req : ProcessFilesRequest) (h : d.runnable? = some rd)
    (hv : ValidRequest fs req)
    (_hread : ∀ f ∈ selectedFiles fs req, fs.readFile f ≠ none) :
    ∃ r1 r2 : AggregatedResult,
      process_files d fs chunk_size { total_files := 0, processed_files := 0 } req =
        .ok (r1, { total_files := (selectedFiles fs req).length
                   processed_files := (selectedFiles fs req).length }) ∧
      process_files d fs chunk_size
          { total_files := (selectedFiles fs req).length
            processed_files := (selectedFiles fs req).length } req =
        .ok (r2, { total_files := (selectedFiles fs req).length
                   processed_files := 2 * (selectedFiles fs req).length }) ∧
      (0 < (selectedFiles fs req).length →
        2 * (selectedFiles fs req).length ≠ (selectedFiles fs req).length) := by
  refine ⟨mergeResultsByStrategy d
      ((selectedFiles fs req).map (processFile rd fs chunk_size)),
    mergeResultsByStrategy d
      ((selectedFiles fs req).map (processFile rd fs chunk_size)),
    ?_, ?_, ?_⟩
  · rw [process_files_ok d rd h fs chunk_size _ req hv]
    simp
  · rw [process_files_ok d rd h fs chunk_size _ req hv]
    simp [two_mul]
  · omega

/-- Witness for C10: one readable file under the word-frequency strategy. -/
theorem C10_witness :
    ((StrategyDesc.wordFreq.runnable? = some RunnableStrategy.wordFreq) ∧
      ValidRequest c10Fs c10Req ∧
      ∀ f ∈ selectedFiles c10Fs c10Req, c10Fs.readFile f ≠ none) ∧
    (∃ r1 r2 : AggregatedResult,
      process_files .wordFreq c10Fs 1024
          { total_files := 0, processed_files := 0 } c10Req =
        .ok (r1, { total_files := (selectedFiles c10Fs c10Req).length
                   processed_files := (selectedFiles c10Fs c10Req).length }) ∧
      process_files .wordFreq c10Fs 1024
          { total_files := (selectedFiles c10Fs c10Req).length
            processed_files := (selectedFiles c10Fs c10Req).length } c10Req =
        .ok (r2, { total_files := (selectedFiles c10Fs c10Req).length
                   processed_files := 2 * (selectedFiles c10Fs c10Req).length }) ∧
      (0 < (selectedFiles c10Fs c10Req).length →
        2 * (selectedFiles c10Fs c10Req).length ≠
          (selectedFiles c10Fs c10Req).length)) :=
  ⟨⟨by decide, by decide, by decide⟩,
    C10_processed_files_accumulates .wordFreq .wordFreq c10Fs 1024 c10Req
      (by decide) (by decide) (by decide)⟩

/-! ## C9: the admission gate bounds concurrency -/

theorem countP_set_of_get? {α : Type} (p : α → Bool) :
    ∀ (l : List α) (i : Nat) (w a : α), l.get? i = some w →
      (l.set i a).countP p + (if p w then 1 else 0) =
        l.countP p + (if p a then 1 else 0) := by
  intro l
  induction l with
  | nil => intro i w a h; cases h
  | cons b t ih =>
    intro i w a h
    cases i with
    | zero =>
      cases h
      simp only [List.set_cons_zero, List.countP_cons]
      omega
    | succ j =>
      have h' : t.get? j = some w := h
      simp only [List.set_cons_succ, List.countP_cons]
      have := ih j w a h'
      omega

theorem runningCount_initSched (files : List String) (limit : Nat) :
    runningCount (initSched files limit) = 0 := by
  unfold runningCount initSched
  simp only [List.countP_map]
  induction files with
  | nil => rfl
  | cons f t ih => simp [List.countP_cons, Phase.isRunning, ih]

theorem runningCount_def (s : SchedState) :
    runningCount s = s.workers.countP (fun w => w.phase.isRunning) := rfl

/-- One scheduler step preserves the semaphore accounting identity
`runningCount + sem`. -/
theorem schedStep_preserves_sem_sum (rd : RunnableStrategy) (fs : FileSystem)
    (chunk_size : Nat) (s : SchedState) (i : Nat) :
    runningCount (schedStep rd fs chunk_size s i) + (schedStep rd fs chunk_size s i).sem =
      runningCount s + s.sem := by
  unfold schedStep
  rcases hw : s.workers.get? i with _ | w
  · rfl
  · dsimp only
    rcases hp : w.phase with _ | ⟨pending, st⟩ | r
    · dsimp only
      by_cases hs : s.sem = 0
      · rw [if_pos hs]
      · rw [if_neg hs]
        have hcnt := countP_set_of_get? (fun w => w.phase.isRunning) s.workers i w
          { path := w.path
            phase := .running (fileChunks fs chunk_size w.path) (rd.fresh w.path) } hw
        have h1 : w.phase.isRunning = false := by rw [hp]; rfl
        have h2 : (Phase.running (fileChunks fs chunk_size w.path)
            (rd.fresh w.path)).isRunning = true := rfl
        simp only [h1, h2, Bool.false_eq_true, if_false, if_true] at hcnt
        simp only [runningCount_def]
        omega
    · cases pending with
      | nil =>
        have hcnt := countP_set_of_get? (fun w => w.phase.isRunning) s.workers i w
          { path := w.path, phase := .done st.finalize } hw
        have h1 : w.phase.isRunning = true := by rw [hp]; rfl
        have h2 : (Phase.done st.finalize).isRunning = false := rfl
        simp only [h1, h2, Bool.false_eq_true, if_false, if_true] at hcnt
        simp only [runningCount_def]
        omega
      | cons c rest =>
        have hcnt := countP_set_of_get? (fun w => w.phase.isRunning) s.workers i w
          { path := w.path, phase := .running rest (st.feedChunk c) } hw
        have h1 : w.phase.isRunning = true := by rw [hp]; rfl
        have h2 : (Phase.running rest (st.feedChunk c)).isRunning = true := rfl
        simp only [h1, h2, if_true] at hcnt
        simp only [runningCount_def]
        omega
    · rfl

theorem runSched_sem_sum (rd : RunnableStrategy) (fs : FileSystem)
    (chunk_size : Nat) (files : List String) (limit : Nat) (sched : List Nat) :
    runningCount (runSched rd fs chunk_size files limit sched) +
      (runSched rd fs chunk_size files limit sched).sem = limit := by
  suffices h : ∀ (s : SchedState) (sch : List Nat),
      runningCount (sch.foldl (schedStep rd fs chunk_size) s) +
        (sch.foldl (schedStep rd fs chunk_size) s).sem = runningCount s + s.sem by
    rw [runSched, h, runningCount_initSched]
    simp [initSched]
  intro s sch
  induction sch generalizing s with
  | nil => rfl
  | cons j t ih =>
    rw [List.foldl_cons, ih, schedStep_preserves_sem_sum]

/-- **C9**: under any interleaving of any run (any strategy, any file system,
any chunk size, any number of discovered files at least `concurrent_limit`),
the number of workers simultaneously inside the semaphore-guarded critical
section never exceeds `concurrent_limit` — every instant of an execution is
`runSched` of some schedule prefix, and the admission-gate accounting
`runningCount + sem = concurrent_limit` pins the count below the limit. -/
theorem C9_concurrency_bounded_by_limit (rd : RunnableStrategy)
    (fs : FileSystem) (chunk_size : Nat) (files : List String)
    (concurrent_limit : Nat) (sched : List Nat)
    (_hfiles : concurrent_limit ≤ files.length) :
    runningCount (runSched rd fs chunk_size files concurrent_limit sched) ≤
      concurrent_limit := by
  have h := runSched_sem_sum rd fs chunk_size files concurrent_limit sched
  omega

/-- Witness for C9: three files, limit 2, a schedule exercising blocking at
the gate. -/
theorem C9_witness :
    2 ≤ (["a", "b", "c"] : List String).length ∧
    runningCount c9Run ≤ 2 :=
  ⟨by decide,
    C9_concurrency_bounded_by_limit (.sentenceSearch "x".data false) c9Fs 8
      ["a", "b", "c"] 2 [0, 1, 2, 0, 1, 0, 0, 1, 2, 2, 2] (by decide)⟩

/-! ## C1: aggregation order of sentence-search results -/

theorem processFile_eq_fold (rd : RunnableStrategy) (fs : FileSystem)
    (chunk_size : Nat) (path : String) :
    processFile rd fs chunk_size path =
      ((fileChunks fs chunk_size path).foldl StratState.feedChunk
        (rd.fresh path)).finalize := by
  unfold processFile fileChunks runStrategy
  cases fs.readFile path <;> rfl

theorem drop_succ_of_drop_cons {α : Type} :
    ∀ (l : List α) (k : Nat) (c : α) (rest : List α),
      l.drop k = c :: rest → l.drop (k + 1) = rest := by
  intro l
  induction l with
  | nil => intro k c rest h; rw [List.drop_nil] at h; cases h
  | cons a t ih =>
    intro k c rest h
    cases k with
    | zero => cases h; rfl
    | succ j => exact ih j c rest h

theorem take_succ_of_drop_cons {α : Type} :
    ∀ (l : List α) (k : Nat) (c : α) (rest : List α),
      l.drop k = c :: rest → l.take (k + 1) = l.take k ++ [c] := by
  intro l
  induction l with
  | nil => intro k c rest h; rw [List.drop_nil] at h; cases h
  | cons a t ih =>
    intro k c rest h
    cases k with
    | zero => cases h; rfl
    | succ j =>
      have := ih j c rest h
      simp [List.take_succ_cons, this]

theorem take_eq_self_of_drop_nil {α : Type} (l : List α) (k : Nat)
    (h : l.drop k = []) : l.take k = l := by
  have happ := List.take_append_drop k l
  rw [h, List.append_nil] at happ
  exact happ

theorem forall₂_get?_right {α β : Type} {R : α → β → Prop} :
    ∀ {l₁ : List α} {l₂ : List β}, List.Forall₂ R l₁ l₂ →
      ∀ {i : Nat} {b : β}, l₂.get? i = some b →
        ∃ a, l₁.get? i = some a ∧ R a b := by
  intro l₁ l₂ h
  induction h with
  | nil => intro i b hb; cases hb
  | cons hab htail ih =>
    intro i b hb
    cases i with
    | zero => cases hb; exact ⟨_, rfl, hab⟩
    | succ j => exact ih hb

theorem forall₂_set_right {α β : Type} {R : α → β → Prop} :
    ∀ {l₁ : List α} {l₂ : List β}, List.Forall₂ R l₁ l₂ →
      ∀ {i : Nat} {a : α} {b' : β}, l₁.get? i = some a → R a b' →
        List.Forall₂ R l₁ (l₂.set i b') := by
  intro l₁ l₂ h
  induction h with
  | nil => intro i a b' ha _; cases ha
  | cons hab htail ih =>
    intro i a b' ha hR
    cases i with
    | zero =>
      cases ha
      exact List.Forall₂.cons hR htail
    | succ j =>
      exact List.Forall₂.cons hab (ih ha hR)

theorem goodState_initSched (rd : RunnableStrategy) (fs : FileSystem)
    (chunk_size : Nat) (files : List String) (limit : Nat) :
    GoodState rd fs chunk_size files (initSched files limit) := by
  unfold GoodState initSched
  induction files with
  | nil => exact List.Forall₂.nil
  | cons f t ih => exact List.Forall₂.cons ⟨rfl, trivial⟩ ih

theorem schedStep_preserves_goodState (rd : RunnableStrategy) (fs : FileSystem)
    (chunk_size : Nat) (files : List String) (s : SchedState) (i : Nat)
    (h : GoodState rd fs chunk_size files s) :
    GoodState rd fs chunk_size files (schedStep rd fs chunk_size s i) := by
  unfold schedStep
  rcases hw : s.workers.get? i with _ | w
  · exact h
  · dsimp only
    obtain ⟨f, hf, hpath, htrack⟩ := forall₂_get?_right h hw
    rcases hp : w.phase with _ | ⟨pending, st⟩ | r
    · dsimp only
      by_cases hs : s.sem = 0
      · rw [if_pos hs]; exact h
      · rw [if_neg hs]
        refine forall₂_set_right h hf ⟨hpath, ?_⟩
        rw [hpath]
        exact ⟨0, by simp, by simp⟩
    · rw [hp] at htrack
      obtain ⟨k, hpend, hst⟩ := htrack
      cases pending with
      | nil =>
        refine forall₂_set_right h hf ⟨hpath, ?_⟩
        show st.finalize = processFile rd fs chunk_size f
        rw [processFile_eq_fold, hst,
          take_eq_self_of_drop_nil (fileChunks fs chunk_size f) k hpend.symm]
      | cons c rest =>
        refine forall₂_set_right h hf ⟨hpath, ?_⟩
        refine ⟨k + 1,
          (drop_succ_of_drop_cons (fileChunks fs chunk_size f) k c rest
            hpend.symm).symm, ?_⟩
        rw [hst, take_succ_of_drop_cons (fileChunks fs chunk_size f) k c rest
          hpend.symm, List.foldl_append]
        rfl
    · exact h

theorem runSched_goodState (rd : RunnableStrategy) (fs : FileSystem)
    (chunk_size : Nat) (files : List String) (limit : Nat) (sched : List Nat) :
    GoodState rd fs chunk_size files
      (runSched rd fs chunk_size files limit sched) := by
  rw [runSched]
  have haux : ∀ (sch : List Nat) (s : SchedState),
      GoodState rd fs chunk_size files s →
      GoodState rd fs chunk_size files (sch.foldl (schedStep rd fs chunk_size) s) := by
    intro sch
    induction sch with
    | nil => intro s hs; exact hs
    | cons j t ih =>
      intro s hs
      exact ih _ (schedStep_preserves_goodState rd fs chunk_size files s j hs)
  exact haux sched _ (goodState_initSched rd fs chunk_size files limit)

theorem collectDone_of_goodState (rd : RunnableStrategy) (fs : FileSystem)
    (chunk_size : Nat) :
    ∀ {files : List String} {ws : List Worker},
      List.Forall₂ (WorkerOK rd fs chunk_size) files ws →
      ∀ {rs : List PerFileResult}, collectDone ws = some rs →
        rs = files.map (processFile rd fs chunk_size) := by
  intro files ws h
  induction h with
  | nil => intro rs hrs; cases hrs; rfl
  | cons hab htail ih =>
    intro rs hrs
    obtain ⟨hpath, htrack⟩ := hab
    simp only [collectDone] at hrs
    rcases hp : ‹Worker›.phase with _ | ⟨pending, st⟩ | r
    all_goals rw [hp] at hrs
    · cases hrs
    · cases hrs
    · rcases hc : collectDone ‹List Worker› with _ | rs'
      all_goals rw [hc] at hrs
      · cases hrs
      · cases hrs
        rw [hp] at htrack
        rw [List.map_cons, htrack, ih hc]

theorem aggregateMatches_eq_flatten (rs : List PerFileResult) :
    aggregateMatches rs = (rs.map matchesOfResult).flatten := by
  suffices h : ∀ acc, rs.foldl (fun acc r => acc ++ matchesOfResult r) acc =
      acc ++ (rs.map matchesOfResult).flatten by
    simpa [aggregateMatches] using h []
  induction rs with
  | nil => intro acc; simp
  | cons r t ih => intro acc; simp [ih, List.append_assoc]

/-- **C1 (counterexample)**: the claim fails as stated — in the concrete run
`c1run` (two files, both admitted, worker 1 finishing first), the completion
order is `[1, 0]`, yet the aggregate that `process_files` builds from
`asyncio.gather`'s task-ordered results puts file `f0`'s matches first: it is
not the flat concatenation of per-file match lists in completion order. -/
theorem C1_counterexample_not_completion_order :
    c1run.completionOrder = [1, 0] ∧
    gatherMatches c1run = some
      [{ file := some "f0", sentence := "aa x.".data },
       { file := some "f0", sentence := "bb x.".data },
       { file := some "f1", sentence := "cc x.".data }] ∧
    completionOrderMatches c1run ≠
      [{ file := some "f0", sentence := "aa x.".data },
       { file := some "f0", sentence := "bb x.".data },
       { file := some "f1", sentence := "cc x.".data }] := by
  refine ⟨by decide, by decide, by decide⟩

/-- **C1 (amended)**: for every sentence-search run and every interleaving
that completes all workers, the gathered per-file results stand in task order
(the order of the de-duplicated file list, independent of completion order),
and the aggregated match list is their flat concatenation in that task order —
in particular matches from a single file keep their in-file discovery order. -/
theorem C1_aggregate_is_task_order_concat (q : List Char) (cs : Bool)
    (files : List String) (fs : FileSystem) (chunk_size concurrent_limit : Nat)
    (sched : List Nat) (rs : List PerFileResult)
    (h : collectDone (runSched (.sentenceSearch q cs) fs chunk_size files
        concurrent_limit sched).workers = some rs) :
    rs = files.map (processFile (.sentenceSearch q cs) fs chunk_size) ∧
    aggregateMatches rs =
      (files.map (fun f =>
        matchesOfResult (processFile (.sentenceSearch q cs) fs chunk_size f))).flatten := by
  have hg := runSched_goodState (.sentenceSearch q cs) fs chunk_size files
    concurrent_limit sched
  have h1 := collectDone_of_goodState (.sentenceSearch q cs) fs chunk_size hg h
  refine ⟨h1, ?_⟩
  rw [h1, aggregateMatches_eq_flatten, List.map_map]
  rfl

/-- Witness for the amended C1: a completed single-file run. -/
theorem C1_witness :
    (collectDone c1wRun.workers =
      some [PerFileResult.matches [{ file := some "g", sentence := "x.".data }]]) ∧
    ([PerFileResult.matches [{ file := some "g", sentence := "x.".data }]] =
        ["g"].map (processFile (.sentenceSearch "x".data false) c1wFs 8) ∧
      aggregateMatches
          [PerFileResult.matches [{ file := some "g", sentence := "x.".data }]] =
        (["g"].map (fun f => matchesOfResult
          (processFile (.sentenceSearch "x".data false) c1wFs 8 f))).flatten) :=
  ⟨by decide,
    C1_aggregate_is_task_order_concat "x".data false ["g"] c1wFs 8 1 [0, 0, 0]
      [PerFileResult.matches [{ file := some "g", sentence := "x.".data }]]
      (by decide)⟩
